import Mathlib

/-!
Shallow embedding of the core logic of the Youtube-Sbv-creator repository.

The repository has three Python entry points:
  * phase01_data_to_json_converter.py  (class DialogueParser)
  * phase02_sequesce_to_sbv_converter.py (class SBVConverter)
  * phase_main_do_all.py (classes DialogueParser and SBVConverter, near
    duplicates of the two above)

Strings are modelled as lists of characters.  Python builtin operations
(str.strip, str.split, substring membership, int(), formatting) are modelled
once and shared between the embeddings of the three files, since the Python
builtins themselves are shared; the duplicated method bodies are each
transcribed separately in the namespaces Phase01, Phase02, PhaseMain.

A Python exception is modelled by the value none of an Option result type.
-/

namespace Sbv

/-- Whitespace characters recognised by str.strip and the regex \s
(the ASCII whitespace set plus the common unicode spaces relevant here). -/
def isPySpace (c : Char) : Bool :=
  c = ' ' || c = '\t' || c = '\n' || c = '\r' || c = '\x0b' || c = '\x0c' ||
  c = ' ' || c = '　'

/-- Model of str.strip(): drop whitespace from both ends. -/
def pyStrip (s : List Char) : List Char :=
  ((s.dropWhile isPySpace).reverse.dropWhile isPySpace).reverse

/-- Model of re.sub(r"\s+", "", s): remove every whitespace character. -/
def normWs (s : List Char) : List Char :=
  s.filter (fun c => !(isPySpace c))

/-- Model of str.split(sep) for a single-character separator: split on every
occurrence, keeping empty fields, so that "".split(sep) gives one empty field. -/
def splitChar (sep : Char) : List Char → List (List Char)
  | [] => [[]]
  | c :: rest =>
    if c = sep then [] :: splitChar sep rest
    else
      match splitChar sep rest with
      | [] => [[c]]
      | h :: t => (c :: h) :: t

/-- Model of str.split(" - "): split on every (leftmost, non-overlapping)
occurrence of the three-character separator. -/
def splitDash : List Char → List (List Char)
  | ' ' :: '-' :: ' ' :: rest => [] :: splitDash rest
  | [] => [[]]
  | c :: rest =>
    match splitDash rest with
    | [] => [[c]]
    | h :: t => (c :: h) :: t

/-- Model of the pair of Python operations (" : " in s) and s.split(" : ", 1):
locate the first occurrence of the separator " : " and return the text before
and after it, or none when the separator does not occur. -/
def splitColonFirst? : List Char → Option (List Char × List Char)
  | ' ' :: ':' :: ' ' :: rest => some ([], rest)
  | [] => none
  | c :: rest =>
    match splitColonFirst? rest with
    | some (b, a) => some (c :: b, a)
    | none => none

/-- Model of the Python substring test (needle in hay). -/
def containsSub (needle : List Char) : List Char → Bool
  | [] => needle.isEmpty
  | c :: rest => needle.isPrefixOf (c :: rest) || containsSub needle rest

/-- Digit-and-underscore tail of an integer literal, as accepted by int():
after a first digit, further digits, with single underscores allowed between
digits.  Accumulates the value. -/
def digitsVal : List Char → Nat → Option Nat
  | [], acc => some acc
  | c :: rest, acc =>
    if c.isDigit then digitsVal rest (acc * 10 + (c.toNat - 48))
    else if c = '_' then
      match rest with
      | d :: rest2 =>
        if d.isDigit then digitsVal rest2 (acc * 10 + (d.toNat - 48)) else none
      | [] => none
    else none

/-- Nonempty digit sequence (with underscore separators) to a natural number. -/
def parseNatNum : List Char → Option Nat
  | [] => none
  | c :: rest => if c.isDigit then digitsVal rest (c.toNat - 48) else none

/-- Model of the Python builtin int(s): strip whitespace, optional sign,
then a digit sequence; none models a raised ValueError. -/
def pyInt (s : List Char) : Option Int :=
  match pyStrip s with
  | '+' :: rest => (parseNatNum rest).map (fun n => (n : Int))
  | '-' :: rest => (parseNatNum rest).map (fun n => -(n : Int))
  | rest => (parseNatNum rest).map (fun n => (n : Int))

/-- Left-pad a digit string with zeros to the given width. -/
def zeroPad (w : Nat) (ds : List Char) : List Char :=
  List.replicate (w - ds.length) '0' ++ ds

/-- Decimal digits of a natural number. -/
def natRepr (n : Nat) : List Char := Nat.toDigits 10 n

/-- Model of the Python format f-string piece without padding. -/
def intRepr (n : Int) : List Char :=
  if n < 0 then '-' :: natRepr n.natAbs else natRepr n.natAbs

/-- Model of the Python zero-padded format piece, e.g. a 0wd format spec:
the sign counts towards the width, zeros go after the sign. -/
def padInt (w : Nat) (n : Int) : List Char :=
  if n < 0 then '-' :: zeroPad (w - 1) (natRepr n.natAbs) else zeroPad w (natRepr n.natAbs)

/-- Model of int((frames / 30.0) * 1000): exact rational value truncated
toward zero.  For the frame-field range that occurs in timecodes (magnitude
below 2 to the 30th or so) the CPython double computation rounds to the same
value, so exact truncated arithmetic is a faithful model here. -/
def framesToMs (f : Int) : Int :=
  if f < 0 then -(((f.natAbs * 1000) / 30 : Nat) : Int)
  else (((f.natAbs * 1000) / 30 : Nat) : Int)

/-- Model of sep.join(strs). -/
def joinWith (sep : List Char) : List (List Char) → List Char
  | [] => []
  | [x] => x
  | x :: rest => x ++ sep ++ joinWith sep rest

/-- The dialogue dictionary built by _parse_dialogue_group: an optional
character name plus the inner lines dictionary, whose only possible keys are
the four fixed language tags, modelled as four optional fields. -/
structure Dialogue where
  character : Option (List Char)
  ko : Option (List Char)
  ja : Option (List Char)
  ja_hiragana : Option (List Char)
  en : Option (List Char)
deriving DecidableEq

/-- The freshly initialised dialogue dictionary. -/
def Dialogue.init : Dialogue := ⟨none, none, none, none, none⟩

/-- len(dialogue_dict["lines"]): number of language keys present. -/
def Dialogue.linesCount (d : Dialogue) : Nat :=
  (if d.ko.isSome then 1 else 0) + (if d.ja.isSome then 1 else 0) +
  (if d.ja_hiragana.isSome then 1 else 0) + (if d.en.isSome then 1 else 0)

/-- Truthiness of dialogue_dict["character"]: a present, nonempty name. -/
def Dialogue.characterTruthy (d : Dialogue) : Bool :=
  match d.character with
  | some c => !c.isEmpty
  | none => false

/-- Dictionary access matched_dialogue["lines"].get(language): the lines
dictionary only ever holds the four fixed tags. -/
def Dialogue.getLine (d : Dialogue) (language : List Char) : Option (List Char) :=
  if language = "ko".toList then d.ko
  else if language = "ja".toList then d.ja
  else if language = "ja_hiragana".toList then d.ja_hiragana
  else if language = "en".toList then d.en
  else none

/-- The relevant state of an SBVConverter: the borrowed dialogue list and the
insertion-ordered dictionary from normalised Japanese text to list index. -/
structure Conv where
  dialogue_data : List Dialogue
  dialogue_index_map : List (List Char × Nat)
deriving DecidableEq

/-- Python dict assignment m[k] = v: overwrite in place when the key exists
(keeping its position), append otherwise. -/
def dictInsert (m : List (List Char × Nat)) (k : List Char) (v : Nat) :
    List (List Char × Nat) :=
  if (m.find? (fun p => p.1 == k)).isSome then
    m.map (fun p => if p.1 == k then (p.1, v) else p)
  else m ++ [(k, v)]

/-- The loop of _build_dialogue_index: index every dialogue by its normalised
Japanese text; none models the KeyError raised when the ja key is absent. -/
def buildIndexLoop : List Dialogue → Nat → List (List Char × Nat) →
    Option (List (List Char × Nat))
  | [], _, m => some m
  | d :: rest, idx, m =>
    match d.ja with
    | some ja_text => buildIndexLoop rest (idx + 1) (dictInsert m (normWs ja_text) idx)
    | none => none

/-- SBVConverter construction (phase_main): store the dialogue data and build
the index. -/
def mkConverter (dialogue_data : List Dialogue) : Option Conv :=
  (buildIndexLoop dialogue_data 0 []).map (fun m => ⟨dialogue_data, m⟩)

/-- One text entry of a timeline cue: composite speaker tag and joined text. -/
structure TextEntry where
  speaker : List Char
  text : List Char
deriving DecidableEq

/-- One cue of the parsed sequence file. -/
structure SeqEntry where
  start : List Char
  endTime : List Char
  texts : List TextEntry
deriving DecidableEq

end Sbv

namespace Sbv.PhaseMain

/-- dialogue_dict["lines"][languages[idx]] = text, with the idx < len(languages)
guard: languages = [ko, ja, ja_hiragana, en]. -/
def setLang (st : Dialogue) (idx : Nat) (text : List Char) : Dialogue :=
  match idx with
  | 0 => { st with ko := some text }
  | 1 => { st with ja := some text }
  | 2 => { st with ja_hiragana := some text }
  | 3 => { st with en := some text }
  | _ => st

/-- One iteration of the for loop of DialogueParser._parse_dialogue_group in
phase_main_do_all.py (lines 84-105). -/
def parseLine (st : Dialogue) (idx : Nat) (rawLine : List Char) : Dialogue :=
  let line := pyStrip rawLine
  if line.isEmpty then st
  else
    match splitColonFirst? line with
    | some (before, after) =>
      let character := pyStrip before
      let text := pyStrip after
      let st1 := if idx = 0 then { st with character := some character } else st
      setLang st1 idx text
    | none => setLang st idx line

/-- The dictionary accumulated over enumerate(lines[:4]). -/
def groupState (ls : List (List Char)) : Dialogue :=
  ((ls.take 4).enum).foldl (fun st p => parseLine st p.1 p.2) Dialogue.init

/-- The final validity test of _parse_dialogue_group:
len(dialogue_dict["lines"]) == 4 and dialogue_dict["character"]. -/
def dialogueValid (d : Dialogue) : Bool :=
  (d.linesCount == 4) && d.characterTruthy

/-- DialogueParser._parse_dialogue_group (phase_main_do_all.py lines 72-111). -/
def parse_dialogue_group (ls : List (List Char)) : Option Dialogue :=
  if ls.length < 4 then none
  else if dialogueValid (groupState ls) then some (groupState ls) else none

/-- DialogueParser.parse_file (phase_main_do_all.py lines 43-70), acting on the
list of raw lines of the input file. -/
def parse_file : List (List Char) → List Dialogue
  | [] => []
  | l :: rest =>
    if (pyStrip l).isEmpty then parse_file rest
    else if (splitColonFirst? (pyStrip l)).isSome then
      match parse_dialogue_group (l :: rest.take 3) with
      | some d => d :: parse_file (rest.drop 3)
      | none => parse_file rest
    else parse_file rest
termination_by ls => ls.length
decreasing_by
  all_goals simp [List.length_drop]
  all_goals omega

/-- SBVConverter.convert_timecode (phase_main_do_all.py lines 141-156).
none models the ValueError raised by int() on an unparseable field. -/
def convert_timecode (premiere_time : List Char) : Option (List Char) :=
  let parts := splitChar ';' premiere_time
  if parts.length ≠ 4 then some premiere_time
  else
    match pyInt (parts.getD 0 []), pyInt (parts.getD 1 []),
          pyInt (parts.getD 2 []), pyInt (parts.getD 3 []) with
    | some hours, some minutes, some seconds, some frames =>
      some (intRepr hours ++ ':' :: padInt 2 minutes ++ ':' :: padInt 2 seconds ++
        '.' :: padInt 3 (framesToMs frames))
    | _, _, _, _ => none

/-- The fallback for loop of find_matching_dialogue: first index key whose
record may match by the 50-character-prefix or key-containment test. -/
def findFallback (normalized : List Char) : List (List Char × Nat) → Option Nat
  | [] => none
  | (key, idx) :: rest =>
    if containsSub (normalized.take 50) key || containsSub key normalized then some idx
    else findFallback normalized rest

/-- SBVConverter.find_matching_dialogue (phase_main_do_all.py lines 222-236). -/
def find_matching_dialogue (cv : Conv) (japanese_text : List Char) : Option Dialogue :=
  let normalized := normWs japanese_text
  match cv.dialogue_index_map.lookup normalized with
  | some idx => cv.dialogue_data[idx]?
  | none =>
    match findFallback normalized cv.dialogue_index_map with
    | some idx => cv.dialogue_data[idx]?
    | none => none

/-- The continuation-line predicate of the inner while loop of
parse_sequence_file: a stripped line that is nonblank, not a speaker tag and
not a timecode-marker candidate is collected as text. -/
def textPred (rawLine : List Char) : Bool :=
  let s := pyStrip rawLine
  !s.isEmpty && !((s.head? == some 'V') && s.contains ',') &&
    !(containsSub " - ".toList s && s.contains ';')

/-- if current_entry and current_entry.get("texts"): flush the entry. -/
def flushIf : Option SeqEntry → List SeqEntry
  | none => []
  | some e => if e.texts.isEmpty then [] else [e]

/-- current_entry["texts"].append(...). -/
def appendText (e : SeqEntry) (speaker text : List Char) : SeqEntry :=
  { e with texts := e.texts ++ [⟨speaker, text⟩] }

/-- The while loop of SBVConverter.parse_sequence_file (phase_main_do_all.py
lines 158-220), including the final flush; returns the emitted cue list in
order, or none when a convert_timecode call raises. -/
def parse_sequence_loop : List (List Char) → Option SeqEntry → Option (List SeqEntry)
  | [], cur => some (flushIf cur)
  | rawLine :: rest, cur =>
    let line := pyStrip rawLine
    if containsSub " - ".toList line && line.contains ';' then
      let times := splitDash line
      if times.length = 2 then
        match convert_timecode (times.getD 0 []), convert_timecode (times.getD 1 []) with
        | some start_time, some end_time =>
          (parse_sequence_loop rest (some ⟨start_time, end_time, []⟩)).map
            (fun out => flushIf cur ++ out)
        | _, _ => none
      else parse_sequence_loop rest cur
    else if (line.head? == some 'V') && line.contains ',' then
      let parts := splitChar ',' line
      let speaker_type := pyStrip (parts.getD 0 [])
      let speaker_num := if parts.length > 1 then pyStrip (parts.getD 1 []) else "1".toList
      let text_lines := rest.takeWhile textPred
      let rest2 := rest.dropWhile textPred
      let cur2 :=
        if !text_lines.isEmpty && cur.isSome then
          match cur with
          | some e =>
            some (appendText e (speaker_type ++ '_' :: speaker_num)
              (joinWith " ".toList text_lines))
          | none => cur
        else cur
      parse_sequence_loop rest2 cur2
    else parse_sequence_loop rest cur
termination_by ls _ => ls.length
decreasing_by
  all_goals simp
  all_goals first
    | omega
    | (have h := (List.dropWhile_sublist (l := rest) (p := textPred)).length_le; omega)

/-- SBVConverter.parse_sequence_file on the raw lines of the sequence file. -/
def parse_sequence_file (ls : List (List Char)) : Option (List SeqEntry) :=
  parse_sequence_loop ls none

/-- The unmatched-text placeholder caption emitted for a non-source language. -/
def placeholderText (t : List Char) : List Char :=
  "[번역 없음: ".toList ++ t.take 30 ++ "...]".toList

/-- One iteration of the inner text loop of create_sbv_content: extend the
caption list and the running missing-translation count. -/
def captionStep (cv : Conv) (language : List Char)
    (acc : List (List Char) × Nat) (te : TextEntry) : List (List Char) × Nat :=
  match find_matching_dialogue cv te.text with
  | some d =>
    match d.getLine language with
    | some v => (acc.1 ++ [v], acc.2)
    | none => acc
  | none =>
    if language = "ja".toList then (acc.1 ++ [te.text], acc.2)
    else (acc.1 ++ [placeholderText te.text], acc.2 + 1)

/-- The caption list of one cue together with the updated missing count. -/
def entryCaptionsCount (cv : Conv) (language : List Char) (ts : List TextEntry)
    (missing : Nat) : List (List Char) × Nat :=
  ts.foldl (captionStep cv language) ([], missing)

/-- The caption lines rendered for one cue. -/
def entryCaptions (cv : Conv) (language : List Char) (ts : List TextEntry) :
    List (List Char) :=
  (entryCaptionsCount cv language ts 0).1

/-- The outer loop of create_sbv_content: the emitted sbv_lines list and the
final missing_count. -/
def create_loop (cv : Conv) (language : List Char) :
    List SeqEntry → Nat → List (List Char) × Nat
  | [], missing => ([], missing)
  | e :: rest, missing =>
    let caps := entryCaptionsCount cv language e.texts missing
    let res := create_loop cv language rest caps.2
    ((e.start ++ ',' :: e.endTime) ::
      (if caps.1.isEmpty then [] else joinWith "\n".toList caps.1) :: [] :: res.1,
     res.2)

/-- SBVConverter.create_sbv_content (phase_main_do_all.py lines 238-279):
returns the joined subtitle document and the missing_count that the method
stores into self.missing_translations[language]. -/
def create_sbv_content (cv : Conv) (seq : List SeqEntry) (language : List Char) :
    List Char × Nat :=
  let res := create_loop cv language seq 0
  (joinWith "\n".toList res.1, res.2)

end Sbv.PhaseMain

namespace Sbv.Phase01

/-- dialogue_dict["lines"][languages[idx]] = text in
phase01_data_to_json_converter.py, with the idx < len(languages) guard. -/
def setLang (st : Dialogue) (idx : Nat) (text : List Char) : Dialogue :=
  match idx with
  | 0 => { st with ko := some text }
  | 1 => { st with ja := some text }
  | 2 => { st with ja_hiragana := some text }
  | 3 => { st with en := some text }
  | _ => st

/-- One iteration of the for loop of DialogueParser._parse_dialogue_group in
phase01_data_to_json_converter.py (lines 123-144). -/
def parseLine (st : Dialogue) (idx : Nat) (rawLine : List Char) : Dialogue :=
  let line := pyStrip rawLine
  if line.isEmpty then st
  else
    match splitColonFirst? line with
    | some (before, after) =>
      let character := pyStrip before
      let text := pyStrip after
      let st1 := if idx = 0 then { st with character := some character } else st
      setLang st1 idx text
    | none => setLang st idx line

/-- The dictionary accumulated over enumerate(lines[:4]) in phase01. -/
def groupState (ls : List (List Char)) : Dialogue :=
  ((ls.take 4).enum).foldl (fun st p => parseLine st p.1 p.2) Dialogue.init

/-- The final validity test of _parse_dialogue_group in phase01. -/
def dialogueValid (d : Dialogue) : Bool :=
  (d.linesCount == 4) && d.characterTruthy

/-- DialogueParser._parse_dialogue_group
(phase01_data_to_json_converter.py lines 104-150). -/
def parse_dialogue_group (ls : List (List Char)) : Option Dialogue :=
  if ls.length < 4 then none
  else if dialogueValid (groupState ls) then some (groupState ls) else none

end Sbv.Phase01

namespace Sbv.Phase02

/-- SBVConverter.convert_timecode
(phase02_sequesce_to_sbv_converter.py lines 146-168). -/
def convert_timecode (premiere_time : List Char) : Option (List Char) :=
  let parts := splitChar ';' premiere_time
  if parts.length ≠ 4 then some premiere_time
  else
    match pyInt (parts.getD 0 []), pyInt (parts.getD 1 []),
          pyInt (parts.getD 2 []), pyInt (parts.getD 3 []) with
    | some hours, some minutes, some seconds, some frames =>
      some (intRepr hours ++ ':' :: padInt 2 minutes ++ ':' :: padInt 2 seconds ++
        '.' :: padInt 3 (framesToMs frames))
    | _, _, _, _ => none

/-- The fallback for loop of find_matching_dialogue in phase02. -/
def findFallback (normalized : List Char) : List (List Char × Nat) → Option Nat
  | [] => none
  | (key, idx) :: rest =>
    if containsSub (normalized.take 50) key || containsSub key normalized then some idx
    else findFallback normalized rest

/-- SBVConverter.find_matching_dialogue
(phase02_sequesce_to_sbv_converter.py lines 252-266). -/
def find_matching_dialogue (cv : Conv) (japanese_text : List Char) : Option Dialogue :=
  let normalized := normWs japanese_text
  match cv.dialogue_index_map.lookup normalized with
  | some idx => cv.dialogue_data[idx]?
  | none =>
    match findFallback normalized cv.dialogue_index_map with
    | some idx => cv.dialogue_data[idx]?
    | none => none

end Sbv.Phase02

namespace Sbv

/-! Specification-side definitions, written from the words of the claims and
compared with the transcribed implementations by the theorems below. -/

/-- Modelled from the claim wording for findMatch: normalise the query; an
exact index hit returns the stored record; otherwise the first index key (in
iteration order) for which the first 50 normalised query characters are
contained in the key, or the key is contained in the normalised query, yields
its record; otherwise absence. -/
def findMatchSpec (cv : Conv) (sourceText : List Char) : Option Dialogue :=
  let n := normWs sourceText
  match cv.dialogue_index_map.find? (fun p => p.1 == n) with
  | some p => cv.dialogue_data[p.2]?
  | none =>
    match cv.dialogue_index_map.find? (fun p =>
        containsSub (n.take 50) p.1 || containsSub p.1 n) with
    | some p => cv.dialogue_data[p.2]?
    | none => none

/-- The speaker name taken from a dialogue line: the stripped text before the
first " : " separator of the stripped line. -/
def speakerOf (l : List Char) : List Char :=
  match splitColonFirst? (pyStrip l) with
  | some (b, _) => pyStrip b
  | none => []

/-- The variant text carried by a dialogue line: the stripped text after the
first " : " separator, or the whole stripped line when there is no separator. -/
def variantOf (l : List Char) : List Char :=
  match splitColonFirst? (pyStrip l) with
  | some (_, a) => pyStrip a
  | none => pyStrip l

/-- A four-line dialogue group of the input script together with the blank
separator lines that follow it. -/
structure WFGroup where
  l0 : List Char
  l1 : List Char
  l2 : List Char
  l3 : List Char
  trail : List (List Char)

/-- The raw input lines contributed by the group. -/
def WFGroup.lines (g : WFGroup) : List (List Char) :=
  g.l0 :: g.l1 :: g.l2 :: g.l3 :: g.trail

/-- The record a well-formed group describes: speaker from line 0, the four
variants bound positionally to ko, ja, ja_hiragana, en. -/
def WFGroup.record (g : WFGroup) : Dialogue :=
  ⟨some (speakerOf g.l0), some (variantOf g.l0), some (variantOf g.l1),
   some (variantOf g.l2), some (variantOf g.l3)⟩

/-- Well-formedness from the claim: line 0 is of the form speaker-separator-
text with a nonempty speaker name, lines 1 to 3 are nonblank, and the trailing
separator lines are blank. -/
def WFGroup.wf (g : WFGroup) : Bool :=
  (splitColonFirst? (pyStrip g.l0)).isSome && !(speakerOf g.l0).isEmpty &&
  !(pyStrip g.l1).isEmpty && !(pyStrip g.l2).isEmpty && !(pyStrip g.l3).isEmpty &&
  g.trail.all (fun b => (pyStrip b).isEmpty)

/-- The number of cue text entries whose source text has no matching dialogue
record. -/
def countUnmatched (cv : Conv) (seq : List SeqEntry) : Nat :=
  (seq.map (fun e =>
    e.texts.countP (fun te => (PhaseMain.find_matching_dialogue cv te.text).isNone))).sum

/-! Helper lemmas. -/

/-- Dictionary lookup is the first association whose key equals the query. -/
theorem lookup_eq_find? (n : List Char) (m : List (List Char × Nat)) :
    m.lookup n = (m.find? (fun p => p.1 == n)).map Prod.snd := by
  induction m with
  | nil => rfl
  | cons p rest ih =>
    obtain ⟨k, v⟩ := p
    by_cases h : k = n
    · subst h
      simp [List.lookup, List.find?]
    · have h1 : (n == k) = false := by simp [h, Ne.symm h]
      have h2 : (k == n) = false := by simp [h]
      simp [List.lookup, List.find?, h1, h2, ih]

/-- The fallback loop returns the index of the first key satisfying the
containment predicate. -/
theorem findFallback_eq_find? (n : List Char) (m : List (List Char × Nat)) :
    PhaseMain.findFallback n m =
      (m.find? (fun p => containsSub (n.take 50) p.1 || containsSub p.1 n)).map Prod.snd := by
  induction m with
  | nil => rfl
  | cons p rest ih =>
    obtain ⟨k, v⟩ := p
    by_cases h : (containsSub (n.take 50) k || containsSub k n) = true
    · simp [PhaseMain.findFallback, List.find?, h]
    · simp only [Bool.not_eq_true] at h
      simp [PhaseMain.findFallback, List.find?, h, ih]

/-- An empty needle is contained in every string. -/
theorem containsSub_nil (s : List Char) : containsSub [] s = true := by
  cases s <;> simp [containsSub, List.isPrefixOf]

/-- A nonempty key never equals the empty query. -/
theorem lookup_nil_of_keys_ne_nil (m : List (List Char × Nat))
    (hkeys : ∀ p ∈ m, p.1 ≠ []) : m.lookup ([] : List Char) = none := by
  induction m with
  | nil => rfl
  | cons p rest ih =>
    obtain ⟨k, v⟩ := p
    have hk : k ≠ [] := hkeys (k, v) (by simp)
    have h1 : (([] : List Char) == k) = false := by
      simp [Ne.symm hk, hk]
    simp only [List.lookup, h1]
    exact ih fun q hq => hkeys q (by simp [hq])

/-- A line with a separator occurrence is nonblank. -/
theorem splitColonFirst?_ne_nil {s : List Char} {p : List Char × List Char}
    (h : splitColonFirst? s = some p) : s.isEmpty = false := by
  cases s with
  | nil => simp [splitColonFirst?] at h
  | cons c rest => rfl

/-- Evaluation of one parser iteration on the group head line. -/
theorem parseLine_zero (l : List Char) (b a : List Char)
    (hs : splitColonFirst? (pyStrip l) = some (b, a)) :
    PhaseMain.parseLine Dialogue.init 0 l =
      ⟨some (pyStrip b), some (pyStrip a), none, none, none⟩ := by
  simp [PhaseMain.parseLine, splitColonFirst?_ne_nil hs, hs, PhaseMain.setLang, Dialogue.init]

/-- Evaluation of one parser iteration on line index 1: the ja slot receives
the variant text of the line. -/
theorem parseLine_one (st : Dialogue) (l : List Char)
    (hne : (pyStrip l).isEmpty = false) :
    PhaseMain.parseLine st 1 l = { st with ja := some (variantOf l) } := by
  cases hs : splitColonFirst? (pyStrip l) with
  | none => simp [PhaseMain.parseLine, hne, hs, PhaseMain.setLang, variantOf]
  | some p =>
    obtain ⟨b, a⟩ := p
    simp [PhaseMain.parseLine, hne, hs, PhaseMain.setLang, variantOf]

/-- Evaluation of one parser iteration on line index 2. -/
theorem parseLine_two (st : Dialogue) (l : List Char)
    (hne : (pyStrip l).isEmpty = false) :
    PhaseMain.parseLine st 2 l = { st with ja_hiragana := some (variantOf l) } := by
  cases hs : splitColonFirst? (pyStrip l) with
  | none => simp [PhaseMain.parseLine, hne, hs, PhaseMain.setLang, variantOf]
  | some p =>
    obtain ⟨b, a⟩ := p
    simp [PhaseMain.parseLine, hne, hs, PhaseMain.setLang, variantOf]

/-- Evaluation of one parser iteration on line index 3. -/
theorem parseLine_three (st : Dialogue) (l : List Char)
    (hne : (pyStrip l).isEmpty = false) :
    PhaseMain.parseLine st 3 l = { st with en := some (variantOf l) } := by
  cases hs : splitColonFirst? (pyStrip l) with
  | none => simp [PhaseMain.parseLine, hne, hs, PhaseMain.setLang, variantOf]
  | some p =>
    obtain ⟨b, a⟩ := p
    simp [PhaseMain.parseLine, hne, hs, PhaseMain.setLang, variantOf]

/-- A well-formed group parses to exactly its record. -/
theorem parse_dialogue_group_wf (g : WFGroup) (h : g.wf = true) :
    PhaseMain.parse_dialogue_group [g.l0, g.l1, g.l2, g.l3] = some g.record := by
  simp only [WFGroup.wf, Bool.and_eq_true, Bool.not_eq_true'] at h
  obtain ⟨⟨⟨⟨⟨h0, hsp⟩, h1⟩, h2⟩, h3⟩, ht⟩ := h
  rcases hs0 : splitColonFirst? (pyStrip g.l0) with _ | ⟨b0, a0⟩
  · rw [hs0] at h0
    simp at h0
  have hgs : PhaseMain.groupState [g.l0, g.l1, g.l2, g.l3] =
      PhaseMain.parseLine (PhaseMain.parseLine (PhaseMain.parseLine
        (PhaseMain.parseLine Dialogue.init 0 g.l0) 1 g.l1) 2 g.l2) 3 g.l3 := rfl
  rw [parseLine_zero g.l0 b0 a0 hs0, parseLine_one _ _ h1, parseLine_two _ _ h2,
    parseLine_three _ _ h3] at hgs
  have hrec : PhaseMain.groupState [g.l0, g.l1, g.l2, g.l3] = g.record := by
    rw [hgs]
    simp only [WFGroup.record, speakerOf, variantOf, hs0]
  have hspk : (pyStrip b0).isEmpty = false := by
    have : speakerOf g.l0 = pyStrip b0 := by simp [speakerOf, hs0]
    rw [this] at hsp
    exact hsp
  have hvalid : PhaseMain.dialogueValid g.record = true := by
    simp [PhaseMain.dialogueValid, Dialogue.linesCount, Dialogue.characterTruthy,
      WFGroup.record, speakerOf, hs0, hspk]
  unfold PhaseMain.parse_dialogue_group
  simp [hrec, hvalid]

/-- Blank lines between groups are skipped by the file loop. -/
theorem parse_file_blank (b : List Char) (rest : List (List Char))
    (h : (pyStrip b).isEmpty = true) :
    PhaseMain.parse_file (b :: rest) = PhaseMain.parse_file rest := by
  rw [PhaseMain.parse_file]
  simp [h]

/-- Any run of blank lines is skipped by the file loop. -/
theorem parse_file_blanks (bs : List (List Char)) (rest : List (List Char))
    (h : ∀ b ∈ bs, (pyStrip b).isEmpty = true) :
    PhaseMain.parse_file (bs ++ rest) = PhaseMain.parse_file rest := by
  induction bs with
  | nil => rfl
  | cons b bs ih =>
    rw [List.cons_append, parse_file_blank b _ (h b (by simp))]
    exact ih fun x hx => h x (by simp [hx])

/-- A well-formed group at the head of the input contributes exactly one
record and the loop continues after its trailing blank lines. -/
theorem parse_file_group_step (g : WFGroup) (rest : List (List Char))
    (h : g.wf = true) :
    PhaseMain.parse_file (g.lines ++ rest) = g.record :: PhaseMain.parse_file rest := by
  have hw := h
  simp only [WFGroup.wf, Bool.and_eq_true, Bool.not_eq_true'] at hw
  obtain ⟨⟨⟨⟨⟨h0, hsp⟩, h1⟩, h2⟩, h3⟩, ht⟩ := hw
  rcases hs0 : splitColonFirst? (pyStrip g.l0) with _ | ⟨b0, a0⟩
  · rw [hs0] at h0
    simp at h0
  have hne0 : (pyStrip g.l0).isEmpty = false := splitColonFirst?_ne_nil hs0
  have hgrp : PhaseMain.parse_dialogue_group
      (g.l0 :: (g.l1 :: g.l2 :: g.l3 :: (g.trail ++ rest)).take 3) = some g.record := by
    simpa using parse_dialogue_group_wf g h
  rw [WFGroup.lines, List.cons_append, List.cons_append, List.cons_append,
    List.cons_append, PhaseMain.parse_file]
  simp only [hne0, Bool.false_eq_true, if_false, hs0, Option.isSome_some, if_true, hgrp]
  simp only [List.drop_succ_cons, List.drop_zero]
  rw [parse_file_blanks g.trail rest (by simpa [List.all_eq_true] using ht)]

/-- A group parse only succeeds with the validated dictionary. -/
theorem parse_dialogue_group_valid {ls : List (List Char)} {d : Dialogue}
    (h : PhaseMain.parse_dialogue_group ls = some d) :
    PhaseMain.dialogueValid d = true := by
  unfold PhaseMain.parse_dialogue_group at h
  split_ifs at h
  simp_all

/-- Every record emitted by the file loop passed the validity test. -/
theorem parse_file_mem_valid (input : List (List Char)) (d : Dialogue)
    (hd : d ∈ PhaseMain.parse_file input) : PhaseMain.dialogueValid d = true := by
  induction input using PhaseMain.parse_file.induct with
  | case1 => simp [PhaseMain.parse_file] at hd
  | case2 l rest hb ih =>
    rw [PhaseMain.parse_file] at hd
    simp only [hb, if_true] at hd
    exact ih hd
  | case3 l rest hb hc d0 hg ih =>
    rw [PhaseMain.parse_file] at hd
    simp only [hb, Bool.false_eq_true, if_false, hc, if_true, hg] at hd
    rcases List.mem_cons.mp hd with h | h
    · exact h ▸ parse_dialogue_group_valid hg
    · exact ih h
  | case4 l rest hb hc hg ih =>
    rw [PhaseMain.parse_file] at hd
    simp only [hb, Bool.false_eq_true, if_false, hc, if_true, hg] at hd
    exact ih hd
  | case5 l rest hb hc ih =>
    rw [PhaseMain.parse_file] at hd
    simp only [hb, Bool.false_eq_true, if_false, hc, if_false] at hd
    exact ih hd

/-- The validity test forces all four language slots and a nonempty name. -/
theorem dialogueValid_destruct (d : Dialogue) (h : PhaseMain.dialogueValid d = true) :
    d.ko.isSome = true ∧ d.ja.isSome = true ∧ d.ja_hiragana.isSome = true ∧
    d.en.isSome = true ∧ ∃ c, d.character = some c ∧ c ≠ [] := by
  obtain ⟨ch, ko, ja, hi, en⟩ := d
  cases ko <;> cases ja <;> cases hi <;> cases en <;> cases ch <;>
    simp_all [PhaseMain.dialogueValid, Dialogue.linesCount, Dialogue.characterTruthy]

/-- Flushed cues always carry at least one text entry. -/
theorem flushIf_mem {cur : Option SeqEntry} {e : SeqEntry}
    (h : e ∈ PhaseMain.flushIf cur) : e.texts ≠ [] := by
  cases cur with
  | none => simp [PhaseMain.flushIf] at h
  | some e0 =>
    by_cases ht : e0.texts.isEmpty
    · simp [PhaseMain.flushIf, ht] at h
    · simp [PhaseMain.flushIf, ht] at h
      subst h
      simpa using ht

/-- Invariant of the sequence loop: every emitted cue has nonempty texts,
whatever the pending entry. -/
theorem parse_sequence_loop_texts (n : Nat) :
    ∀ ls cur out, ls.length ≤ n →
      PhaseMain.parse_sequence_loop ls cur = some out → ∀ e ∈ out, e.texts ≠ [] := by
  induction n with
  | zero =>
    intro ls cur out hlen hout e he
    have hnil : ls = [] := List.length_eq_zero.mp (Nat.le_zero.mp hlen)
    subst hnil
    rw [PhaseMain.parse_sequence_loop] at hout
    injection hout with hout
    subst hout
    exact flushIf_mem he
  | succ n ih =>
    intro ls cur out hlen hout e he
    cases ls with
    | nil =>
      rw [PhaseMain.parse_sequence_loop] at hout
      injection hout with hout
      subst hout
      exact flushIf_mem he
    | cons rawLine rest =>
      have hrest : rest.length ≤ n := by
        simp at hlen
        omega
      rw [PhaseMain.parse_sequence_loop] at hout
      dsimp only at hout
      split at hout
      · split at hout
        · split at hout
          · rename_i heq
            rw [Option.map_eq_some'] at hout
            obtain ⟨out1, hout1, rfl⟩ := hout
            rcases List.mem_append.mp he with h | h
            · exact flushIf_mem h
            · exact ih rest _ out1 hrest hout1 e h
          · exact absurd hout (by simp)
        · exact ih rest cur out hrest hout e he
      · split at hout
        · refine ih _ _ out ?_ hout e he
          have := (List.dropWhile_sublist (l := rest) (p := PhaseMain.textPred)).length_le
          omega
        · exact ih rest cur out hrest hout e he

/-- For a non-source language, the caption fold adds one to the miss counter
for exactly the unmatched text entries. -/
theorem captionStep_count_ne (cv : Conv) (lang : List Char) (hne : lang ≠ "ja".toList) :
    ∀ (ts : List TextEntry) (caps : List (List Char)) (missing : Nat),
      (ts.foldl (PhaseMain.captionStep cv lang) (caps, missing)).2 =
        missing + ts.countP (fun te => (PhaseMain.find_matching_dialogue cv te.text).isNone) := by
  intro ts
  induction ts with
  | nil => simp
  | cons te ts ih =>
    intro caps missing
    rw [List.foldl_cons, List.countP_cons]
    rcases hf : PhaseMain.find_matching_dialogue cv te.text with _ | d
    · simp only [PhaseMain.captionStep, hf, if_neg hne, ih]
      simp [hf]
      omega
    · rcases hg : d.getLine lang with _ | v <;>
        simp only [PhaseMain.captionStep, hf, hg, ih] <;> simp [hf]

/-- For the source language the caption fold never touches the miss counter. -/
theorem captionStep_count_ja (cv : Conv) (lang : List Char) (hja : lang = "ja".toList) :
    ∀ (ts : List TextEntry) (caps : List (List Char)) (missing : Nat),
      (ts.foldl (PhaseMain.captionStep cv lang) (caps, missing)).2 = missing := by
  intro ts
  induction ts with
  | nil => simp
  | cons te ts ih =>
    intro caps missing
    rw [List.foldl_cons]
    rcases hf : PhaseMain.find_matching_dialogue cv te.text with _ | d
    · simp only [PhaseMain.captionStep, hf, if_pos hja, ih]
    · rcases hg : d.getLine lang with _ | v <;>
        simp only [PhaseMain.captionStep, hf, hg, ih]

/-- The caption fold only ever appends captions. -/
theorem captionStep_mono (cv : Conv) (lang : List Char) :
    ∀ (ts : List TextEntry) (caps : List (List Char)) (missing : Nat) (x : List Char),
      x ∈ caps → x ∈ (ts.foldl (PhaseMain.captionStep cv lang) (caps, missing)).1 := by
  intro ts
  induction ts with
  | nil => intro caps missing x hx; simpa using hx
  | cons te ts ih =>
    intro caps missing x hx
    rw [List.foldl_cons]
    rcases hf : PhaseMain.find_matching_dialogue cv te.text with _ | d
    · by_cases hja : lang = "ja".toList
      · simp only [PhaseMain.captionStep, hf, if_pos hja]
        exact ih _ _ x (by simp [hx])
      · simp only [PhaseMain.captionStep, hf, if_neg hja]
        exact ih _ _ x (by simp [hx])
    · rcases hg : d.getLine lang with _ | v <;>
        simp only [PhaseMain.captionStep, hf, hg] <;>
        exact ih _ _ x (by simp [hx])

/-- An unmatched text entry leaves its trace in the caption fold: the raw
source text for the source language, the placeholder otherwise. -/
theorem captionStep_mem (cv : Conv) (lang : List Char) :
    ∀ (ts : List TextEntry) (caps : List (List Char)) (missing : Nat) (te : TextEntry),
      te ∈ ts → PhaseMain.find_matching_dialogue cv te.text = none →
      (lang = "ja".toList →
        te.text ∈ (ts.foldl (PhaseMain.captionStep cv lang) (caps, missing)).1) ∧
      (lang ≠ "ja".toList →
        PhaseMain.placeholderText te.text ∈
          (ts.foldl (PhaseMain.captionStep cv lang) (caps, missing)).1) := by
  intro ts
  induction ts with
  | nil => intro caps missing te hte; simp at hte
  | cons te0 ts ih =>
    intro caps missing te hte hf
    rcases List.mem_cons.mp hte with h | h
    · subst h
      constructor
      · intro hja
        rw [List.foldl_cons]
        simp only [PhaseMain.captionStep, hf, if_pos hja]
        exact captionStep_mono cv lang ts _ _ _ (by simp)
      · intro hne
        rw [List.foldl_cons]
        simp only [PhaseMain.captionStep, hf, if_neg hne]
        exact captionStep_mono cv lang ts _ _ _ (by simp)
    · rw [List.foldl_cons]
      exact ih _ _ te h hf

/-- The outer rendering loop accumulates exactly the unmatched count for a
non-source language and nothing for the source language. -/
theorem create_loop_count (cv : Conv) (lang : List Char) :
    ∀ (seq : List SeqEntry) (missing : Nat),
      (PhaseMain.create_loop cv lang seq missing).2 =
        if lang = "ja".toList then missing else missing + countUnmatched cv seq := by
  intro seq
  induction seq with
  | nil => intro missing; simp [PhaseMain.create_loop, countUnmatched]
  | cons e rest ih =>
    intro missing
    rw [PhaseMain.create_loop]
    dsimp only
    rw [ih]
    by_cases hja : lang = "ja".toList
    · simp only [if_pos hja, PhaseMain.entryCaptionsCount,
        captionStep_count_ja cv lang hja]
    · simp only [if_neg hja, PhaseMain.entryCaptionsCount,
        captionStep_count_ne cv lang hja]
      simp [countUnmatched]
      omega

/-! Claim theorems. -/

/-- C2: for every list of well-formed 4-line dialogue groups (line 0 of the
form speaker-separator-text with nonempty speaker, lines 1 to 3 nonblank,
each group followed by its blank separator lines), parse_file emits exactly
one record per group, whose speaker is the name from line 0 and whose four
variants are the stripped texts of lines 0 to 3 bound positionally to ko, ja,
ja_hiragana, en, and the output preserves the input order of the groups. -/
theorem claim_C2 (gs : List WFGroup) (h : ∀ g ∈ gs, g.wf = true) :
    PhaseMain.parse_file ((gs.map WFGroup.lines).flatten) = gs.map WFGroup.record := by
  induction gs with
  | nil => simp [PhaseMain.parse_file]
  | cons g gs ih =>
    rw [List.map_cons, List.map_cons, List.flatten_cons,
      parse_file_group_step g _ (h g (by simp))]
    rw [ih fun x hx => h x (by simp [hx])]

/-- C2 witness: two concrete well-formed groups (the second with a bare
continuation line and a trailing blank line) parse to their two records in
input order. -/
theorem claim_C2_witness :
    PhaseMain.parse_file
      ((([⟨"a : k".toList, "a : j".toList, "a : h".toList, "a : e".toList, []⟩,
          ⟨"b : k2".toList, "b : j2".toList, "h2".toList, "b : e2".toList,
           [[]]⟩] : List WFGroup).map WFGroup.lines).flatten) =
      ([⟨"a : k".toList, "a : j".toList, "a : h".toList, "a : e".toList, []⟩,
        ⟨"b : k2".toList, "b : j2".toList, "h2".toList, "b : e2".toList,
         [[]]⟩] : List WFGroup).map WFGroup.record :=
  claim_C2 _ (by decide)

/-- C3: every record emitted by parse_file has all four language tags
populated and a nonempty speaker, for every input; and a 4-line group whose
accumulated dictionary fails the four-tags-and-nonempty-speaker test yields
no record at all (parse_dialogue_group returns none, raising no error). -/
theorem claim_C3 :
    (∀ input d, d ∈ PhaseMain.parse_file input →
      d.ko.isSome = true ∧ d.ja.isSome = true ∧ d.ja_hiragana.isSome = true ∧
      d.en.isSome = true ∧ ∃ c, d.character = some c ∧ c ≠ []) ∧
    (∀ ls, PhaseMain.dialogueValid (PhaseMain.groupState ls) = false →
      PhaseMain.parse_dialogue_group ls = none) := by
  constructor
  · intro input d hd
    exact dialogueValid_destruct d (parse_file_mem_valid input d hd)
  · intro ls h
    unfold PhaseMain.parse_dialogue_group
    split_ifs with h1 h2
    · rfl
    · rw [h2] at h
      cases h
    · rfl

/-- C3 witness: a concrete parsed record is fully populated, and a concrete
group with a blank second line (only three tags) is dropped. -/
theorem claim_C3_witness :
    ((⟨some "a".toList, some "k".toList, some "j".toList, some "h".toList,
       some "e".toList⟩ : Dialogue).ko.isSome = true ∧
     (⟨some "a".toList, some "k".toList, some "j".toList, some "h".toList,
       some "e".toList⟩ : Dialogue).ja.isSome = true ∧
     (⟨some "a".toList, some "k".toList, some "j".toList, some "h".toList,
       some "e".toList⟩ : Dialogue).ja_hiragana.isSome = true ∧
     (⟨some "a".toList, some "k".toList, some "j".toList, some "h".toList,
       some "e".toList⟩ : Dialogue).en.isSome = true ∧
     ∃ c, (⟨some "a".toList, some "k".toList, some "j".toList, some "h".toList,
       some "e".toList⟩ : Dialogue).character = some c ∧ c ≠ []) ∧
    PhaseMain.parse_dialogue_group
      ["a : k".toList, [], "h".toList, "a : e".toList] = none :=
  ⟨claim_C3.1 ["a : k".toList, "a : j".toList, "h".toList, "a : e".toList]
      ⟨some "a".toList, some "k".toList, some "j".toList, some "h".toList, some "e".toList⟩
      (by simp +decide [PhaseMain.parse_file]),
   claim_C3.2 ["a : k".toList, [], "h".toList, "a : e".toList] (by decide)⟩

/-- C6: for every timeline-export input on which parsing completes, every cue
in the output of parse_sequence_file has at least one texts entry: both the
flush at a new timecode marker and the flush at end of input emit the pending
cue only when its texts list is nonempty. -/
theorem claim_C6 (input : List (List Char)) (out : List SeqEntry)
    (h : PhaseMain.parse_sequence_file input = some out) :
    ∀ e ∈ out, e.texts ≠ [] :=
  parse_sequence_loop_texts input.length input none out (Nat.le_refl _) h

/-- C6 witness: a concrete timeline with one cue that never receives text
(flushed empty at the next marker) and one that does; the single emitted cue
has a nonempty texts list. -/
theorem claim_C6_witness :
    PhaseMain.parse_sequence_file
      ["00;00;00;00 - 00;00;24;17".toList, [], "00;00;24;17 - 00;00;29;15".toList,
       "V5, 1".toList, "t".toList] =
      some [⟨"0:00:24.566".toList, "0:00:29.500".toList,
            [⟨"V5_1".toList, "t".toList⟩]⟩] ∧
    (⟨"0:00:24.566".toList, "0:00:29.500".toList,
      [⟨"V5_1".toList, "t".toList⟩]⟩ : SeqEntry).texts ≠ [] := by
  have hp : PhaseMain.parse_sequence_file
      ["00;00;00;00 - 00;00;24;17".toList, [], "00;00;24;17 - 00;00;29;15".toList,
       "V5, 1".toList, "t".toList] =
      some [⟨"0:00:24.566".toList, "0:00:29.500".toList,
            [⟨"V5_1".toList, "t".toList⟩]⟩] := by
    simp +decide [PhaseMain.parse_sequence_file, PhaseMain.parse_sequence_loop]
  exact ⟨hp, claim_C6 _ _ hp _ (by simp)⟩

/-- C7: during rendering of a language, every unmatched cue-text entry emits
the raw source text when the requested language is the source language ja,
and otherwise emits the placeholder carrying the truncated source snippet and
counts one miss, so that the miss counter stored for the language equals the
number of unmatched cue-text entries (and stays 0 for ja). -/
theorem claim_C7 (cv : Conv) (seq : List SeqEntry) (language : List Char) :
    ((PhaseMain.create_sbv_content cv seq language).2 =
      if language = "ja".toList then 0 else countUnmatched cv seq) ∧
    (∀ e ∈ seq, ∀ te ∈ e.texts,
      PhaseMain.find_matching_dialogue cv te.text = none →
      (language = "ja".toList →
        te.text ∈ PhaseMain.entryCaptions cv language e.texts) ∧
      (language ≠ "ja".toList →
        PhaseMain.placeholderText te.text ∈ PhaseMain.entryCaptions cv language e.texts)) := by
  constructor
  · unfold PhaseMain.create_sbv_content
    dsimp only
    rw [create_loop_count]
    by_cases hja : language = "ja".toList
    · simp [hja]
    · simp [hja]
  · intro e he te hte hf
    exact captionStep_mem cv language e.texts [] 0 te hte hf

/-- C7 witness: with an empty dialogue set, rendering Korean for one cue with
one (necessarily unmatched) text entry stores miss count 1, equal to the
unmatched-entry count, and the placeholder line is among the cue captions. -/
theorem claim_C7_witness :
    ((PhaseMain.create_sbv_content ⟨[], []⟩
        [⟨"s".toList, "e".toList, [⟨"V5_1".toList, "x".toList⟩]⟩] "ko".toList).2 =
      countUnmatched ⟨[], []⟩ [⟨"s".toList, "e".toList, [⟨"V5_1".toList, "x".toList⟩]⟩]) ∧
    PhaseMain.placeholderText "x".toList ∈
      PhaseMain.entryCaptions ⟨[], []⟩ "ko".toList [⟨"V5_1".toList, "x".toList⟩] := by
  constructor
  · have h := (claim_C7 ⟨[], []⟩
      [⟨"s".toList, "e".toList, [⟨"V5_1".toList, "x".toList⟩]⟩] "ko".toList).1
    rw [if_neg (by decide)] at h
    exact h
  · exact ((claim_C7 ⟨[], []⟩
      [⟨"s".toList, "e".toList, [⟨"V5_1".toList, "x".toList⟩]⟩] "ko".toList).2
      ⟨"s".toList, "e".toList, [⟨"V5_1".toList, "x".toList⟩]⟩ (by simp)
      ⟨"V5_1".toList, "x".toList⟩ (by simp) (by decide)).2 (by decide)

/-- C1, counterexample: convert_timecode does not map "00;00;24;17" to
"0:00:24.170"; the 17 frames of the fourth field become
floor(17 / 30 * 1000) = 566 milliseconds, not 170. -/
theorem claim_C1_counterexample :
    PhaseMain.convert_timecode "00;00;24;17".toList ≠ some "0:00:24.170".toList := by
  decide

/-- C1, amended: convertTimecode maps the editor timecode "00;00;24;17" to the
subtitle timecode "0:00:24.566", and maps "00;01;05;15" to "0:01:05.500",
milliseconds being floor(frames / 30 * 1000). -/
theorem claim_C1_amended :
    PhaseMain.convert_timecode "00;00;24;17".toList = some "0:00:24.566".toList ∧
    PhaseMain.convert_timecode "00;01;05;15".toList = some "0:01:05.500".toList := by
  decide

/-- C4: find_matching_dialogue equals the claim-side description: normalise
the query by removing all whitespace; an exact index-key hit returns the
record stored for that key, taking priority over the fallback; otherwise the
first key in index order for which the first 50 normalised query characters
are contained in the key, or the key is contained in the normalised query,
yields its record; otherwise absence. -/
theorem claim_C4 (cv : Conv) (q : List Char) :
    PhaseMain.find_matching_dialogue cv q = findMatchSpec cv q := by
  unfold PhaseMain.find_matching_dialogue findMatchSpec
  simp only [lookup_eq_find?, findFallback_eq_find?]
  cases h1 : cv.dialogue_index_map.find? (fun p => p.1 == normWs q) with
  | none =>
    cases h2 : cv.dialogue_index_map.find? (fun p =>
        containsSub ((normWs q).take 50) p.1 || containsSub p.1 (normWs q)) <;> simp
  | some p => simp

/-- C5: on any input that does not split into exactly 4 semicolon fields,
convert_timecode returns the input unchanged and raises no exception. -/
theorem claim_C5 (s : List Char) (h : (splitChar ';' s).length ≠ 4) :
    PhaseMain.convert_timecode s = some s := by
  unfold PhaseMain.convert_timecode
  simp [h]

/-- C5 witness: the malformed timecode "00;00;24" splits into 3 fields and is
passed through unchanged. -/
theorem claim_C5_witness :
    (splitChar ';' "00;00;24".toList).length ≠ 4 ∧
    PhaseMain.convert_timecode "00;00;24".toList = some ("00;00;24".toList) :=
  ⟨by decide, claim_C5 "00;00;24".toList (by decide)⟩

/-- C10: on an input with exactly 4 semicolon fields of which some field is
not parseable as an integer, convert_timecode raises (modelled by none)
instead of returning the input unchanged: the defensive pass-through guards
only the field count. -/
theorem claim_C10 (s : List Char) (h4 : (splitChar ';' s).length = 4)
    (hbad : (splitChar ';' s).any (fun p => (pyInt p).isNone) = true) :
    PhaseMain.convert_timecode s = none := by
  unfold PhaseMain.convert_timecode
  rcases hp : splitChar ';' s with _ | ⟨a, _ | ⟨b, _ | ⟨c, _ | ⟨d, _ | ⟨e, t⟩⟩⟩⟩⟩ <;>
    rw [hp] at h4 <;> simp at h4
  rw [hp] at hbad
  simp only [List.any_cons, List.any_nil, Bool.or_eq_true, Option.isNone_iff_eq_none] at hbad
  simp only [List.length_cons, List.length_nil, List.getD]
  rcases ha : pyInt a with _ | va <;> rcases hb : pyInt b with _ | vb <;>
    rcases hc : pyInt c with _ | vc <;> rcases hd : pyInt d with _ | vd <;>
    simp_all

/-- C10 witness: "aa;bb;cc;dd" has 4 fields, none an integer literal, and
convert_timecode raises on it. -/
theorem claim_C10_witness :
    (splitChar ';' "aa;bb;cc;dd".toList).length = 4 ∧
    (splitChar ';' "aa;bb;cc;dd".toList).any (fun p => (pyInt p).isNone) = true ∧
    PhaseMain.convert_timecode "aa;bb;cc;dd".toList = none :=
  ⟨by decide, by decide, claim_C10 "aa;bb;cc;dd".toList (by decide) (by decide)⟩

/-- C8: the duplicated core logic is extensionally equal across the three
entry points: _parse_dialogue_group in phase01 agrees with phase_main on
every input, and convert_timecode and find_matching_dialogue in phase02
agree with phase_main on every input and converter state. -/
theorem claim_C8 :
    (∀ ls, Phase01.parse_dialogue_group ls = PhaseMain.parse_dialogue_group ls) ∧
    (∀ s, Phase02.convert_timecode s = PhaseMain.convert_timecode s) ∧
    (∀ cv q, Phase02.find_matching_dialogue cv q = PhaseMain.find_matching_dialogue cv q) := by
  refine ⟨fun ls => rfl, fun s => rfl, fun cv q => ?_⟩
  have hff : ∀ n m, Phase02.findFallback n m = PhaseMain.findFallback n m := by
    intro n m
    induction m with
    | nil => rfl
    | cons p rest ih =>
      obtain ⟨k, v⟩ := p
      simp [Phase02.findFallback, PhaseMain.findFallback, ih]
  unfold Phase02.find_matching_dialogue PhaseMain.find_matching_dialogue
  simp only [hff]

/-- C9, counterexample: with a reachable converter state whose second dialogue
has whitespace-only Japanese text (so its index key is the empty string), an
empty-normalising query takes the exact-match branch and returns the second
record, not the record of the first key in iteration order, refuting the
claim as stated. -/
theorem claim_C9_counterexample :
    mkConverter
      [⟨some ['s'], some ['k'], some ['a'], some ['h'], some ['e']⟩,
       ⟨some ['t'], some ['K'], some [' '], some ['H'], some ['E']⟩] =
      some ⟨[⟨some ['s'], some ['k'], some ['a'], some ['h'], some ['e']⟩,
             ⟨some ['t'], some ['K'], some [' '], some ['H'], some ['E']⟩],
            [(['a'], 0), ([], 1)]⟩ ∧
    normWs [] = [] ∧
    PhaseMain.find_matching_dialogue
      ⟨[⟨some ['s'], some ['k'], some ['a'], some ['h'], some ['e']⟩,
        ⟨some ['t'], some ['K'], some [' '], some ['H'], some ['E']⟩],
       [(['a'], 0), ([], 1)]⟩ [] =
      some ⟨some ['t'], some ['K'], some [' '], some ['H'], some ['E']⟩ ∧
    some (⟨some ['t'], some ['K'], some [' '], some ['H'], some ['E']⟩ : Dialogue) ≠
      (⟨[⟨some ['s'], some ['k'], some ['a'], some ['h'], some ['e']⟩,
         ⟨some ['t'], some ['K'], some [' '], some ['H'], some ['E']⟩],
        [(['a'], 0), ([], 1)]⟩ : Conv).dialogue_data[(([(['a'], 0), ([], 1)]).headD ([], 0)).2]? := by
  decide

/-- C9, amended: for every query normalising to the empty string, provided the
index is nonempty and no index key is itself empty, find_matching_dialogue
returns the record stored at the first index key in iteration order, because
the empty 50-character prefix of the normalised query is contained in every
key. -/
theorem claim_C9_amended (cv : Conv) (q : List Char) (hq : normWs q = [])
    (hne : cv.dialogue_index_map ≠ [])
    (hkeys : ∀ p ∈ cv.dialogue_index_map, p.1 ≠ []) :
    PhaseMain.find_matching_dialogue cv q =
      cv.dialogue_data[(cv.dialogue_index_map.headD ([], 0)).2]? := by
  unfold PhaseMain.find_matching_dialogue
  rcases hm : cv.dialogue_index_map with _ | ⟨⟨k, v⟩, rest⟩
  · exact absurd hm hne
  · have hlook : List.lookup (normWs q) (((k, v) :: rest) : List (List Char × Nat)) = none := by
      rw [hq]
      exact lookup_nil_of_keys_ne_nil _ (by rw [← hm]; exact hkeys)
    have hfb : PhaseMain.findFallback (normWs q) ((k, v) :: rest) = some v := by
      rw [hq]
      simp [PhaseMain.findFallback, containsSub_nil]
    simp [hm, hlook, hfb]

/-- C9 witness for the amended claim: a singleton index with nonempty key and
the empty query returns that first record. -/
theorem claim_C9_witness :
    normWs [] = ([] : List Char) ∧
    PhaseMain.find_matching_dialogue
      ⟨[⟨some ['s'], some ['k'], some ['a'], some ['h'], some ['e']⟩], [(['a'], 0)]⟩ [] =
      (⟨[⟨some ['s'], some ['k'], some ['a'], some ['h'], some ['e']⟩],
        [(['a'], 0)]⟩ : Conv).dialogue_data[(([(['a'], 0)] :
          List (List Char × Nat)).headD ([], 0)).2]? :=
  ⟨by decide,
   claim_C9_amended
     ⟨[⟨some ['s'], some ['k'], some ['a'], some ['h'], some ['e']⟩], [(['a'], 0)]⟩
     [] (by decide) (by decide) (by decide)⟩

end Sbv
